import Mathlib

/-
  Verification of the round-based LLM tournament engine.

  Shallow embedding of the core logic of `llm_competition.py`
  (orchestrator, answer collection, structured judging, scoring,
  final ranking) and of the free-text judge-response parser of
  `gradio_app.py` (`OnlineCompetitionSystem._parse_judge_response`).

  External effects are made explicit:
  - a provider call outcome is an `Except String String`
    (`.error e` models a raised exception with message `e`);
  - `random.shuffle` / `random.randint` in the judge fallback are
    modelled by an oracle (`JudgeFallbackOracle`);
  - timestamps (`time.time()`) are irrelevant to every claim and are
    passed as plain naturals (0 at call sites).
-/

namespace LLMComp

/-! ## Data model (from `model_api.py`, `question_bank.py`, `llm_competition.py`) -/

/-- Mirror of `ModelConfig` in `model_api.py`. -/
structure ModelConfig where
  name : String
  api_key : String
  base_url : String
  model : String
  provider : String
deriving DecidableEq

/-- Mirror of `Question` in `question_bank.py` (difficulty kept as text). -/
structure Question where
  id : Nat
  content : String
  topic : String
  difficulty : String
deriving DecidableEq

/-- Mirror of the `Answer` dataclass in `llm_competition.py`. -/
structure Answer where
  model_name : String
  content : String
  timestamp : Nat
deriving DecidableEq

/-- Mirror of the `JudgmentResult` dataclass: `rankings` is a list of
`(model_name, score)` pairs. -/
structure JudgmentResult where
  question_id : Nat
  judge_model : String
  rankings : List (String × Int)
  reasoning : String
deriving DecidableEq

/-- The configurable point table `competition_settings.scoring`. -/
structure Scoring where
  first_place : Int
  second_place : Int
  third_place : Int
  other_place : Int
deriving DecidableEq

/-- One entry of the structured judge-response JSON:
`{"model_name": ..., "score": ..., "rank": ...}`, with both fields
numeric. This is the all-numeric restriction of `JRankEntry` below
(`json.loads` imposes no score type); it is used by the claims whose
content does not depend on the score's JSON type. -/
structure RankEntry where
  model_name : String
  score : Int
  rank : Int
deriving DecidableEq

/-- A successfully JSON-parsed judge response:
`{"rankings": [...], "reasoning": "..."}`, all-numeric restriction of
`JJudgmentData` below.  `_judge_answers` receives an `Option` of it:
`none` models the exception path (unparseable response or missing
keys). -/
structure JudgmentData where
  rankings : List RankEntry
  reasoning : String
deriving DecidableEq

/-- Oracle for the random fallback in `_judge_answers`:
`shuffle` models `random.shuffle(answers)` and `score k` models the
`k`-th drawn `random.randint(5, 8)`. -/
structure JudgeFallbackOracle where
  shuffle : List Answer → List Answer
  score : Nat → Int

/-! ## `_call_model`, `_get_model_answer`, `_collect_answers` -/

/-- `LLMCompetition._call_model`: wraps the provider call; on an
exception it returns the apology text embedding the model name and the
error message instead of re-raising. -/
def call_model (m : ModelConfig) (providerResult : Except String String) : String :=
  match providerResult with
  | .ok s => s
  | .error e => "抱歉，" ++ m.name ++ " 暂时无法响应。错误信息：" ++ e

/-- `LLMCompetition._get_model_answer`: builds an `Answer` from the
wrapper's text; its own `except` clause re-raises, so the result is an
exception only if `call_model` raised (it never does). -/
def get_model_answer (m : ModelConfig) (providerResult : Except String String)
    (t : Nat) : Except String Answer :=
  .ok ⟨m.name, call_model m providerResult, t⟩

/-- The per-element body of the loop in `_collect_answers`: an exception
slot is replaced by the default apology answer for that contestant. -/
def handleAnswer (p : ModelConfig × Except String Answer) : Answer :=
  match p.2 with
  | .error _ => ⟨p.1.name, "抱歉，我无法回答这个问题。", 0⟩
  | .ok a => a

/-- `LLMCompetition._collect_answers`: iterates the gathered results in
order (`asyncio.gather` preserves input order), substituting the default
answer for any exception. The input pairs each contestant with its slot
of the gathered list. -/
def collect_answers : List (ModelConfig × Except String Answer) → List Answer
  | [] => []
  | p :: rest => handleAnswer p :: collect_answers rest

/-! ## `_judge_answers` -/

/-- `LLMCompetition._judge_answers`: on a parsed response, the rankings
are the declared `(model_name, score)` pairs verbatim (the `rank` field
is dropped, and no membership check against the contestants is made);
on the exception path the answers are shuffled and paired with random
scores, with the fixed fallback reasoning. -/
def judge_answers (q : Question) (answers : List Answer) (judge : ModelConfig)
    (parsed : Option JudgmentData) (fb : JudgeFallbackOracle) : JudgmentResult :=
  match parsed with
  | some jd =>
    ⟨q.id, judge.name, jd.rankings.map (fun e => (e.model_name, e.score)), jd.reasoning⟩
  | none =>
    ⟨q.id, judge.name,
      ((fb.shuffle answers).enum).map (fun p => (p.2.model_name, fb.score p.1)),
      "评分系统出现错误，使用随机排名。"⟩

/-! ## Stable descending sort (Python `sorted(key=lambda x: x[1], reverse=True)`)

Python's `sorted` is stable; with `reverse=True` the order is
non-increasing in the key and elements with equal keys keep their
original relative order. The insertion sort below has exactly this
semantics (an element is inserted before the first element with a
strictly smaller key). -/

/-- Insert `x` before the first element whose score is strictly below
`x`'s (so `x` goes after nothing it ties with from the already-placed
suffix, preserving stability of the fold below). -/
def insertDesc (x : String × Int) : List (String × Int) → List (String × Int)
  | [] => [x]
  | y :: ys => if y.2 ≤ x.2 then x :: y :: ys else y :: insertDesc x ys

/-- Stable sort by score descending, as Python's
`sorted(rankings, key=lambda x: x[1], reverse=True)`. -/
def sortDesc : List (String × Int) → List (String × Int)
  | [] => []
  | x :: xs => insertDesc x (sortDesc xs)

/-! ## Score ledger (`self.final_scores`, a `defaultdict(int)`) -/

/-- The ledger is an insertion-ordered association list, as a Python
dict: first-scored names come first. -/
abbrev Ledger := List (String × Int)

/-- `self.final_scores[name] += pts` on a `defaultdict(int)`: update the
existing entry in place, or append a fresh entry (default 0) at the end. -/
def addScore (L : Ledger) (n : String) (pts : Int) : Ledger :=
  match L with
  | [] => [(n, pts)]
  | p :: rest => if p.1 = n then (p.1, p.2 + pts) :: rest else p :: addScore rest n pts

/-- Reading a score from the ledger (0 for an absent name, as
`defaultdict(int)` would report). -/
def lookup0 (L : Ledger) (n : String) : Int :=
  match L.find? (fun p => p.1 == n) with
  | some p => p.2
  | none => 0

/-- The position → points table of `_update_scores`
(`rank == 0` → first, `1` → second, `2` → third, else other). -/
def pointFor (s : Scoring) (rank : Nat) : Int :=
  if rank = 0 then s.first_place
  else if rank = 1 then s.second_place
  else if rank = 2 then s.third_place
  else s.other_place

/-- `LLMCompetition._update_scores`: sort the judgment's rankings by
declared score descending (stable), then add the positional points to
each named entry in that order. -/
def update_scores (s : Scoring) (rankings : List (String × Int)) (L : Ledger) : Ledger :=
  ((sortDesc rankings).enum).foldl (fun acc p => addScore acc p.2.1 (pointFor s p.1)) L

/-- `LLMCompetition._generate_final_result` (the `final_rankings` field):
`sorted(self.final_scores.items(), key=lambda x: x[1], reverse=True)`. -/
def generate_final_result (L : Ledger) : List (String × Int) :=
  sortDesc L

/-! ## JSON-typed scores

`json.loads` imposes no type on the declared `score` field, and
`_judge_answers` copies it verbatim, so `_update_scores` can be asked
to sort values of mixed types — which makes Python's `sorted` raise an
uncaught `TypeError`. The definitions below carry the score at its
JSON type; the `Int`-typed definitions above are their all-numeric
restrictions (see `update_scoresJ_emb` and `judge_answersJ_agree`). -/

/-- A JSON value in a structured response's `score` (or `rank`) field.
Two kinds are modelled — numbers and strings: Python compares any two
values of the same kind (numbers numerically, strings lexicographically
by code point) and raises `TypeError` on a mixed pair, which is all the
comparison structure `sorted` can observe; further JSON kinds would
behave like additional mutually-incomparable kinds. -/
inductive JVal where
  | num : Int → JVal
  | str : String → JVal
deriving DecidableEq

/-- One entry of the structured judge-response JSON with its fields at
their JSON types. -/
structure JRankEntry where
  model_name : String
  score : JVal
  rank : JVal
deriving DecidableEq

/-- A successfully JSON-parsed judge response with JSON-typed fields:
what `_judge_answers` actually receives from `json.loads`. -/
structure JJudgmentData where
  rankings : List JRankEntry
  reasoning : String
deriving DecidableEq

/-- `JudgmentResult` with JSON-typed scores. -/
structure JJudgmentResult where
  question_id : Nat
  judge_model : String
  rankings : List (String × JVal)
  reasoning : String
deriving DecidableEq

/-- `LLMCompetition._judge_answers` over JSON-typed scores: identical
control flow to `judge_answers` — declared pairs are copied verbatim on
a parse success (no type check either), shuffled random numeric scores
on the exception path. -/
def judge_answersJ (q : Question) (answers : List Answer) (judge : ModelConfig)
    (parsed : Option JJudgmentData) (fb : JudgeFallbackOracle) : JJudgmentResult :=
  match parsed with
  | some jd =>
    ⟨q.id, judge.name, jd.rankings.map (fun e => (e.model_name, e.score)), jd.reasoning⟩
  | none =>
    ⟨q.id, judge.name,
      ((fb.shuffle answers).enum).map (fun p => (p.2.model_name, JVal.num (fb.score p.1))),
      "评分系统出现错误，使用随机排名。"⟩

/-- Embedding of an all-numeric ranking pair into JSON-typed form. -/
def embNum (p : String × Int) : String × JVal :=
  (p.1, JVal.num p.2)

/-- Embedding of all-numeric structured judgment data into JSON-typed
form. -/
def embJD (jd : JudgmentData) : JJudgmentData :=
  ⟨jd.rankings.map (fun e => ⟨e.model_name, JVal.num e.score, JVal.num e.rank⟩),
    jd.reasoning⟩

/-! ## Round structure of `run_competition` -/

/-- `[m for i, m in enumerate(self.models) if i != judge_idx]`. -/
def contestantsOf (models : List ModelConfig) (judgeIdx : Nat) : List ModelConfig :=
  ((models.enum).filter (fun p => p.1 != judgeIdx)).map Prod.snd

/-- The two nested loops of `run_competition`: questions in supplied
order, and inside each question every judge index `0..N-1` in order.
Each round is `(question, judge_idx, judge_model)`. -/
def roundsOf (models : List ModelConfig) (questions : List Question) :
    List (Question × Nat × ModelConfig) :=
  questions.flatMap (fun q => (models.enum).map (fun p => (q, p.1, p.2)))

/-- Python `str.strip()`: drop whitespace from both ends. -/
def stripChars (cs : List Char) : List Char :=
  ((cs.dropWhile Char.isWhitespace).reverse.dropWhile Char.isWhitespace).reverse

/-- Python `str.split(sep)` for a one-character separator: `""` splits
to `[""]`, and a trailing separator yields a trailing empty piece. -/
def splitOnChar (sep : Char) : List Char → List (List Char)
  | [] => [[]]
  | c :: rest =>
    if c == sep then [] :: splitOnChar sep rest
    else
      match splitOnChar sep rest with
      | [] => [[c]]
      | h :: t => (c :: h) :: t

/-- Python `'\n'.join(lines)`. -/
def joinLines : List (List Char) → List Char
  | [] => []
  | [l] => l
  | l :: ls => l ++ '\n' :: joinLines ls

/-- Python substring test `pat in s` (contiguous occurrence). -/
def isSubList (pat : List Char) : List Char → Bool
  | [] => pat.isEmpty
  | c :: rest => pat.isPrefixOf (c :: rest) || isSubList pat rest

/-- `pat in line` with `line` already a character list. -/
def hasSub (line : List Char) (pat : String) : Bool :=
  isSubList pat.data line

/-- `line and (line[0].isdigit() or line.startswith('第'))`. -/
def isRankingLine (line : List Char) : Bool :=
  match line with
  | [] => false
  | c :: _ => c.isDigit || c == '第'

/-- The scanning loop of `_parse_judge_response`: skip lines holding a
rankings marker; stop (recording the index) at a reasoning-marker line;
on a digit/ordinal-led line, give the first contestant name found in it
the next sequential position. Returns the collected rankings and the
Python `reasoning_start` (`none` for `-1`). -/
def scanLines (model_names : List String) :
    List (List Char) → Nat → List (String × Nat) → List (String × Nat) × Option Nat
  | [], _, rks => (rks, none)
  | l :: rest, i, rks =>
    let line := stripChars l
    if hasSub line "排名：" || hasSub line "排名:" then
      scanLines model_names rest (i + 1) rks
    else if hasSub line "评价理由：" || hasSub line "评价理由:" then
      (rks, some i)
    else if isRankingLine line then
      match model_names.find? (fun n => hasSub line n) with
      | some n => scanLines model_names rest (i + 1) (rks ++ [(n, rks.length + 1)])
      | none => scanLines model_names rest (i + 1) rks
    else
      scanLines model_names rest (i + 1) rks

/-- `OnlineCompetitionSystem._parse_judge_response`: scan the stripped
response's lines; take the reasoning from the lines after the marker
only when `reasoning_start > 0`, otherwise return the raw response; then
append every still-unranked contestant (membership tested against the
scan's rankings) at the next sequential position. -/
def parse_judge_response (response : String) (model_names : List String) :
    List (String × Nat) × String :=
  let lines := splitOnChar '\n' (stripChars response.data)
  let scanned := scanLines model_names lines 0 []
  let reasoning : String :=
    match scanned.2 with
    | some i =>
      if 0 < i then ⟨stripChars (joinLines (lines.drop (i + 1)))⟩ else response
    | none => response
  let ranked := scanned.1.map Prod.fst
  (model_names.foldl
    (fun acc n => if ranked.contains n then acc else acc ++ [(n, acc.length + 1)])
    scanned.1,
   reasoning)

/-- The predicate characterizing the line at which the scan of
`_parse_judge_response` stops: a line whose stripped text holds a
reasoning marker but no rankings marker (a rankings marker is checked
first and skips the line). -/
def reasonMarkerLine (l : List Char) : Bool :=
  let line := stripChars l
  !(hasSub line "排名：" || hasSub line "排名:") &&
    (hasSub line "评价理由：" || hasSub line "评价理由:")

/-! ## Definitions following the spec's words, for comparison -/

/-- Modelled from the spec: "rankings are sorted by the judge's declared
score descending, ties broken by original contestant order" — arrange
the ranking's entries in original contestant order first, then
stable-sort by score descending. -/
def claimedSortDesc (contestants : List String) (rks : List (String × Int)) :
    List (String × Int) :=
  sortDesc (contestants.filterMap (fun n => rks.find? (fun e => e.1 == n)))

/-- Modelled from the spec: per-round scoring with ties broken by
original contestant order (compare with `update_scores`). -/
def claimed_update_scores (s : Scoring) (contestants : List String)
    (rks : List (String × Int)) (L : Ledger) : Ledger :=
  ((claimedSortDesc contestants rks).enum).foldl
    (fun acc p => addScore acc p.2.1 (pointFor s p.1)) L

/-- Modelled from the spec: "sort `(name, total_score)` pairs by score
descending, ties broken by first-encountered order in the participant
list" — list the pairs in participant order, then stable-sort by score
descending (compare with `generate_final_result`). -/
def claimedFinalRankings (participants : List String) (L : Ledger) :
    List (String × Int) :=
  sortDesc (participants.map (fun n => (n, lookup0 L n)))

/-! ## Concrete fixtures for witnesses and counterexamples -/

/-- Participant A of the worked scenarios. -/
def mA : ModelConfig := ⟨"A", "k", "u", "m", "openai"⟩

/-- Participant B of the worked scenarios. -/
def mB : ModelConfig := ⟨"B", "k", "u", "m", "openai"⟩

/-- Participant C of the worked scenarios. -/
def mC : ModelConfig := ⟨"C", "k", "u", "m", "openai"⟩

/-- A fixed question for the worked scenarios. -/
def q0 : Question := ⟨1, "q", "t", "medium"⟩

/-- A deterministic fallback oracle (identity shuffle, constant score),
one admissible behaviour of `random.shuffle` / `random.randint`. -/
def fb0 : JudgeFallbackOracle := ⟨fun l => l, fun _ => 5⟩

/-- Answers of contestants B and C in the worked scenarios. -/
def ansBC : List Answer := [⟨"B", "x", 0⟩, ⟨"C", "y", 0⟩]

/-- The point table `{3, 2, 1, 0}` of the spec's scenarios. -/
def s3210 : Scoring := ⟨3, 2, 1, 0⟩

theorem insertDesc_perm (x : String × Int) (l : List (String × Int)) :
    List.Perm (insertDesc x l) (x :: l) := by
  induction l with
  | nil => simp [insertDesc]
  | cons y ys ih =>
    simp only [insertDesc]
    split
    · exact .refl _
    · exact .trans (.cons y ih) (.swap x y ys)

theorem sortDesc_perm (l : List (String × Int)) : List.Perm (sortDesc l) l := by
  induction l with
  | nil => simp [sortDesc]
  | cons x xs ih => exact .trans (insertDesc_perm x (sortDesc xs)) (.cons x ih)

theorem pairwise_insertDesc (x : String × Int) (l : List (String × Int))
    (h : l.Pairwise (fun a b => b.2 ≤ a.2)) :
    (insertDesc x l).Pairwise (fun a b => b.2 ≤ a.2) := by
  induction l with
  | nil => simp [insertDesc]
  | cons y ys ih =>
    simp only [insertDesc]
    rcases List.pairwise_cons.mp h with ⟨hy, hys⟩
    split
    · rename_i hle
      refine List.pairwise_cons.mpr ⟨?_, h⟩
      intro z hz
      rcases List.mem_cons.mp hz with rfl | hz
      · exact hle
      · exact le_trans (hy z hz) hle
    · rename_i hgt
      refine List.pairwise_cons.mpr ⟨?_, ih hys⟩
      intro z hz
      rcases List.mem_cons.mp ((insertDesc_perm x ys).mem_iff.mp hz) with rfl | hz
      · exact le_of_not_le hgt
      · exact hy z hz

theorem sortDesc_pairwise (l : List (String × Int)) :
    (sortDesc l).Pairwise (fun a b => b.2 ≤ a.2) := by
  induction l with
  | nil => simp [sortDesc]
  | cons x xs ih => exact pairwise_insertDesc x (sortDesc xs) ih

theorem filter_insertDesc_pos (x : String × Int) (l : List (String × Int)) (v : Int)
    (hx : x.2 = v) :
    (insertDesc x l).filter (fun e => e.2 == v) =
      x :: l.filter (fun e => e.2 == v) := by
  induction l with
  | nil => simp [insertDesc, hx]
  | cons y ys ih =>
    simp only [insertDesc]
    split
    · simp [hx]
    · rename_i hgt
      have hy : (y.2 == v) = false := by
        simp only [beq_eq_false_iff_ne, ne_eq]
        intro hv
        exact hgt (le_of_eq (hv.trans hx.symm))
      simp [List.filter_cons, hy, ih]

theorem filter_insertDesc_neg (x : String × Int) (l : List (String × Int)) (v : Int)
    (hx : x.2 ≠ v) :
    (insertDesc x l).filter (fun e => e.2 == v) = l.filter (fun e => e.2 == v) := by
  induction l with
  | nil => simp [insertDesc, hx]
  | cons y ys ih =>
    simp only [insertDesc]
    split
    · simp [List.filter_cons, hx]
    · simp [List.filter_cons, ih]

theorem sortDesc_filter (l : List (String × Int)) (v : Int) :
    (sortDesc l).filter (fun e => e.2 == v) = l.filter (fun e => e.2 == v) := by
  induction l with
  | nil => simp [sortDesc]
  | cons x xs ih =>
    by_cases hx : x.2 = v
    · rw [sortDesc, filter_insertDesc_pos x (sortDesc xs) v hx, ih,
        List.filter_cons_of_pos (by simpa using hx)]
    · rw [sortDesc, filter_insertDesc_neg x (sortDesc xs) v hx, ih,
        List.filter_cons_of_neg (by simpa using hx)]

/-! ## Helper lemmas: the score ledger -/

theorem lookup0_cons (p : String × Int) (L : Ledger) (m : String) :
    lookup0 (p :: L) m = if p.1 == m then p.2 else lookup0 L m := by
  unfold lookup0
  rw [List.find?_cons]
  cases h : p.1 == m <;> simp [h, lookup0]

theorem lookup0_addScore (L : Ledger) (n : String) (pts : Int) (m : String) :
    lookup0 (addScore L n pts) m = lookup0 L m + (if m = n then pts else 0) := by
  induction L with
  | nil =>
    by_cases h : m = n
    · simp [addScore, lookup0_cons, lookup0, beq_iff_eq, h]
    · have h' : ¬ n = m := fun hh => h hh.symm
      simp [addScore, lookup0_cons, lookup0, beq_iff_eq, h, h']
  | cons p rest ih =>
    simp only [addScore]
    by_cases hpn : p.1 = n
    · rw [if_pos hpn]
      by_cases hpm : p.1 = m
      · have hmn : m = n := hpm.symm.trans hpn
        simp [lookup0_cons, beq_iff_eq, hpm, hmn, add_assoc]
      · have hmn : ¬ m = n := fun h => hpm (hpn.trans h.symm)
        simp [lookup0_cons, beq_iff_eq, hpm, hmn]
    · rw [if_neg hpn]
      by_cases hpm : p.1 = m
      · have hmn : ¬ m = n := fun h => hpn (hpm.trans h)
        simp [lookup0_cons, beq_iff_eq, hpm, hmn]
      · simp [lookup0_cons, beq_iff_eq, hpm, ih]

theorem lookup0_foldl_addScore (s : Scoring) (entries : List (Nat × String × Int))
    (L : Ledger) (m : String) :
    lookup0 (entries.foldl (fun acc p => addScore acc p.2.1 (pointFor s p.1)) L) m
      = lookup0 L m
        + ((entries.filter (fun p => p.2.1 == m)).map (fun p => pointFor s p.1)).sum := by
  induction entries generalizing L with
  | nil => simp
  | cons e es ih =>
    simp only [List.foldl_cons, ih, lookup0_addScore, List.filter_cons]
    by_cases h : e.2.1 = m
    · simp [h, beq_iff_eq]
      ring
    · have h' : ¬ m = e.2.1 := fun hh => h hh.symm
      simp [h, h', beq_iff_eq]

/-! ## Claims C4 and C5 -/

/-- Claim C4, counterexample: the claim says ties are broken by
original contestant order, but `_update_scores` sorts the ranking as
declared. With contestants `[B, C]` and declared tied entries
`[(C,5),(B,5)]`, the code awards C the first-place points while the
claimed rule (ties by contestant order) awards them to B. -/
theorem c4_counterexample :
    update_scores s3210 [("C", 5), ("B", 5)] [] = [("C", 3), ("B", 2)]
    ∧ claimed_update_scores s3210 ["B", "C"] [("C", 5), ("B", 5)] [] = [("B", 3), ("C", 2)]
    ∧ update_scores s3210 [("C", 5), ("B", 5)] [] ≠
        claimed_update_scores s3210 ["B", "C"] [("C", 5), ("B", 5)] [] := by
  refine ⟨by decide, by decide, by decide⟩

/-- Claim C4 (amended): per-round scoring is a pure function of the
ranking and point table: the ranking's entries are stably sorted by
declared score descending, with ties keeping the ranking's own entry
order (the judge's declared order, not contestant order); the entry at
0-based position `r` of the sorted list receives the point-table value
for `r` (first/second/third/other); and in the concrete scenario with
point table `{3,2,1,0}` and structured judgment B=9, C=7, any ledger is
incremented by B+=3, C+=2, with A untouched. -/
theorem c4_scoring_rule :
    (∀ rks : List (String × Int),
      List.Perm (sortDesc rks) rks
      ∧ (sortDesc rks).Pairwise (fun a b => b.2 ≤ a.2)
      ∧ ∀ v : Int, (sortDesc rks).filter (fun e => e.2 == v)
          = rks.filter (fun e => e.2 == v))
    ∧ (∀ (s : Scoring) (rks : List (String × Int)) (L : Ledger) (m : String),
      lookup0 (update_scores s rks L) m
        = lookup0 L m
          + ((((sortDesc rks).enum).filter (fun p => p.2.1 == m)).map
              (fun p => pointFor s p.1)).sum)
    ∧ (∀ L : Ledger,
      lookup0 (update_scores s3210 [("B", 9), ("C", 7)] L) "B" = lookup0 L "B" + 3
      ∧ lookup0 (update_scores s3210 [("B", 9), ("C", 7)] L) "C" = lookup0 L "C" + 2
      ∧ lookup0 (update_scores s3210 [("B", 9), ("C", 7)] L) "A" = lookup0 L "A") := by
  refine ⟨fun rks => ⟨sortDesc_perm rks, sortDesc_pairwise rks, sortDesc_filter rks⟩,
    fun s rks L m => lookup0_foldl_addScore s ((sortDesc rks).enum) L m, fun L => ?_⟩
  have hred : update_scores s3210 [("B", 9), ("C", 7)] L
      = addScore (addScore L "B" 3) "C" 2 := rfl
  refine ⟨?_, ?_, ?_⟩ <;> rw [hred] <;> simp [lookup0_addScore]

/-- Claim C5, counterexample: a reachable ledger (participants
`[A, B, C]`, point table `{3,2,1,0}`, three rounds whose judged scores
make all totals tie at 5) on which `_generate_final_result` orders the
tie by ledger insertion order `C, B, A` — the order names first received
points — while the claimed tie-break by participant-list order would
give `A, B, C`. -/
theorem c5_counterexample :
    generate_final_result
        (update_scores s3210 [("A", 1), ("B", 9)]
          (update_scores s3210 [("A", 9), ("C", 1)]
            (update_scores s3210 [("B", 1), ("C", 9)] [])))
      = [("C", 5), ("B", 5), ("A", 5)]
    ∧ claimedFinalRankings ["A", "B", "C"]
        (update_scores s3210 [("A", 1), ("B", 9)]
          (update_scores s3210 [("A", 9), ("C", 1)]
            (update_scores s3210 [("B", 1), ("C", 9)] [])))
      = [("A", 5), ("B", 5), ("C", 5)]
    ∧ generate_final_result
        (update_scores s3210 [("A", 1), ("B", 9)]
          (update_scores s3210 [("A", 9), ("C", 1)]
            (update_scores s3210 [("B", 1), ("C", 9)] [])))
      ≠ claimedFinalRankings ["A", "B", "C"]
        (update_scores s3210 [("A", 1), ("B", 9)]
          (update_scores s3210 [("A", 9), ("C", 1)]
            (update_scores s3210 [("B", 1), ("C", 9)] []))) := by
  refine ⟨by decide, by decide, by decide⟩

/-- Claim C5 (amended): the final result is the stable descending sort
of the ledger's `(name, total_score)` pairs: a permutation of the
ledger, with scores non-increasing, and ties keeping the ledger's
insertion order (the order names first received points, not the
participant-list order); recomputing it from the same ledger yields the
identical output (the function is deterministic by construction). -/
theorem c5_final_ranking :
    ∀ L : Ledger,
      List.Perm (generate_final_result L) L
      ∧ (generate_final_result L).Pairwise (fun a b => b.2 ≤ a.2)
      ∧ (∀ v : Int, (generate_final_result L).filter (fun e => e.2 == v)
          = L.filter (fun e => e.2 == v))
      ∧ generate_final_result L = generate_final_result L :=
  fun L => ⟨sortDesc_perm L, sortDesc_pairwise L, fun v => sortDesc_filter L v, rfl⟩

/-! ## Claims C2 and C9 -/

theorem collect_eq_map (pairs : List (ModelConfig × Except String Answer)) :
    collect_answers pairs = pairs.map handleAnswer := by
  induction pairs with
  | nil => rfl
  | cons p rest ih => simp [collect_answers, ih]

/-- Claim C2: the answer collector returns exactly one answer per
contestant, order-preserving; an exception slot yields the non-empty
apology sentinel as content; and the answer at a position depends only
on that position's input, so one contestant's failure never removes or
alters another contestant's answer. The hypothesis states that every
successfully gathered answer carries its own contestant's name, which
`_get_model_answer` guarantees at the call site. -/
theorem c2_answer_collector (pairs : List (ModelConfig × Except String Answer))
    (h : ∀ p ∈ pairs, ∀ a : Answer, p.2 = .ok a → a.model_name = p.1.name) :
    (collect_answers pairs).length = pairs.length
    ∧ (∀ (k : Nat) (hk : k < pairs.length) (hk' : k < (collect_answers pairs).length),
        ((collect_answers pairs).get ⟨k, hk'⟩).model_name = (pairs.get ⟨k, hk⟩).1.name)
    ∧ (∀ (k : Nat) (hk : k < pairs.length) (hk' : k < (collect_answers pairs).length)
        (e : String), (pairs.get ⟨k, hk⟩).2 = .error e →
        ((collect_answers pairs).get ⟨k, hk'⟩).content = "抱歉，我无法回答这个问题。"
        ∧ ((collect_answers pairs).get ⟨k, hk'⟩).content ≠ "")
    ∧ (∀ (pairs2 : List (ModelConfig × Except String Answer)) (k : Nat),
        pairs[k]? = pairs2[k]? →
        (collect_answers pairs)[k]? = (collect_answers pairs2)[k]?) := by
  refine ⟨by simp [collect_eq_map], ?_, ?_, ?_⟩
  · intro k hk hk'
    rw [List.get_eq_getElem, List.get_eq_getElem]
    simp only [collect_eq_map, List.getElem_map]
    have hmem : pairs[k] ∈ pairs := List.getElem_mem hk
    cases hp : (pairs[k]).2 with
    | error e => simp [handleAnswer, hp]
    | ok a =>
      have hname := h _ hmem a hp
      simp [handleAnswer, hp, hname]
  · intro k hk hk' e hpe
    rw [List.get_eq_getElem] at hpe
    rw [List.get_eq_getElem]
    simp only [collect_eq_map, List.getElem_map]
    refine ⟨by simp [handleAnswer, hpe], ?_⟩
    simp only [handleAnswer, hpe]
    decide
  · intro pairs2 k hEq
    simp only [collect_eq_map, List.getElem?_map, hEq]

/-- Witness for C2 at a concrete input with one successful and one
failed slot. -/
theorem c2_answer_collector_witness :
    (∀ p ∈ ([(mB, Except.ok ⟨"B", "ansB", 0⟩), (mC, Except.error "boom")] :
        List (ModelConfig × Except String Answer)),
      ∀ a : Answer, p.2 = .ok a → a.model_name = p.1.name)
    ∧ (collect_answers
        [(mB, Except.ok ⟨"B", "ansB", 0⟩), (mC, Except.error "boom")]).length
      = ([(mB, Except.ok ⟨"B", "ansB", 0⟩), (mC, Except.error "boom")] :
          List (ModelConfig × Except String Answer)).length := by
  have h : ∀ p ∈ ([(mB, Except.ok ⟨"B", "ansB", 0⟩), (mC, Except.error "boom")] :
      List (ModelConfig × Except String Answer)),
      ∀ a : Answer, p.2 = .ok a → a.model_name = p.1.name := by
    intro p hp a ha
    rcases List.mem_cons.mp hp with rfl | hp2
    · injection ha with h2
      rw [← h2]
      rfl
    · rcases List.mem_cons.mp hp2 with rfl | hp3
      · exact Except.noConfusion ha
      · exact absurd hp3 (List.not_mem_nil p)
  exact ⟨h, (c2_answer_collector _ h).1⟩

theorem isPrefixOf_append_self (pat b : List Char) :
    pat.isPrefixOf (pat ++ b) = true := by
  induction pat with
  | nil => simp [List.isPrefixOf]
  | cons c cs ih => simp [List.isPrefixOf, ih]

theorem isSubList_append_self (pat b : List Char) : isSubList pat (pat ++ b) = true := by
  have hpre : pat.isPrefixOf (pat ++ b) = true := isPrefixOf_append_self pat b
  cases hc : pat ++ b with
  | nil =>
    rcases List.append_eq_nil.mp hc with ⟨rfl, rfl⟩
    rfl
  | cons c rest =>
    rw [isSubList, ← hc, hpre]
    rfl

theorem isSubList_append (a pat b : List Char) : isSubList pat (a ++ pat ++ b) = true := by
  induction a with
  | nil => simpa using isSubList_append_self pat b
  | cons c a' ih =>
    show (pat.isPrefixOf (c :: (a' ++ pat ++ b)) || isSubList pat (a' ++ pat ++ b)) = true
    rw [ih, Bool.or_true]

/-- Claim C9, counterexample: the claim asserts `_call_model` always
returns a non-empty string, but on a successful provider call it
returns the provider's text verbatim — which may be empty. -/
theorem c9_counterexample : call_model mA (Except.ok "") = "" := rfl

/-- Claim C9 (amended): `_call_model` never propagates an exception; a
provider failure is converted into the apology message, which is
non-empty and embeds the model name and error text. Hence
`_get_model_answer` never yields an exception, so the
exception-substitution branch of `_collect_answers` is unreachable at
its call site and every returned answer carries the wrapper's string as
content. (A successful provider call is returned verbatim, so the
result is non-empty only when the provider's text is.) -/
theorem c9_call_wrapper :
    (∀ (m : ModelConfig) (e : String),
      call_model m (.error e)
          = "抱歉，" ++ m.name ++ " 暂时无法响应。错误信息：" ++ e
      ∧ call_model m (.error e) ≠ ""
      ∧ hasSub (call_model m (.error e)).data m.name = true
      ∧ hasSub (call_model m (.error e)).data e = true)
    ∧ (∀ (m : ModelConfig) (r : Except String String) (t : Nat),
      get_model_answer m r t = .ok ⟨m.name, call_model m r, t⟩)
    ∧ (∀ (contestants : List ModelConfig) (oracle : ModelConfig → Except String String),
      collect_answers (contestants.map (fun c => (c, get_model_answer c (oracle c) 0)))
        = contestants.map (fun c => ⟨c.name, call_model c (oracle c), 0⟩)) := by
  refine ⟨fun m e => ⟨rfl, ?_, ?_, ?_⟩, fun m r t => rfl, ?_⟩
  · intro hemp
    have h2 := congrArg String.length hemp
    simp only [call_model, String.length_append] at h2
    have h3 : ("抱歉，" : String).length = 3 := by decide
    have h4 : ("" : String).length = 0 := by decide
    omega
  · show isSubList m.name.data (call_model m (.error e)).data = true
    have hdata : (call_model m (.error e)).data
        = "抱歉，".data ++ m.name.data
          ++ (" 暂时无法响应。错误信息：".data ++ e.data) := by
      simp [call_model, String.data_append, List.append_assoc]
    rw [hdata]
    exact isSubList_append _ _ _
  · show isSubList e.data (call_model m (.error e)).data = true
    have hdata : (call_model m (.error e)).data
        = ("抱歉，".data ++ m.name.data ++ " 暂时无法响应。错误信息：".data)
          ++ e.data ++ [] := by
      simp [call_model, String.data_append, List.append_assoc]
    rw [hdata]
    exact isSubList_append _ _ _
  · intro contestants oracle
    induction contestants with
    | nil => rfl
    | cons c cs ih =>
      simp only [List.map_cons, collect_answers, ih]
      rfl

/-! ## Claims C3 and C8 -/

theorem filter_enumFrom_ne (ms : List ModelConfig) :
    ∀ (n j : Nat), (((List.enumFrom n ms).filter (fun p => p.1 != j)).map Prod.snd)
      = if j < n then ms else ms.eraseIdx (j - n) := by
  induction ms with
  | nil =>
    intro n j
    simp only [List.enumFrom, List.filter_nil, List.map_nil]
    split <;> rfl
  | cons m ms ih =>
    intro n j
    simp only [List.enumFrom, List.filter_cons]
    by_cases hnj : n = j
    · subst hnj
      have hb : ((n : Nat) != n) = false := by simp
      rw [hb]
      simp only [Bool.false_eq_true, if_false, ih (n + 1) n]
      have h1 : n < n + 1 := by omega
      have h2 : ¬ n < n := by omega
      simp [h1, h2]
    · have hb : ((n : Nat) != j) = true := by simp [hnj]
      rw [hb]
      simp only [if_true, List.map_cons, ih (n + 1) j]
      by_cases hlt : j < n
      · have h1 : j < n + 1 := by omega
        simp [hlt, h1]
      · have hgt : ¬ j < n + 1 := by omega
        have h2 : j - n = (j - (n + 1)) + 1 := by omega
        simp only [hlt, hgt, if_false, Bool.false_eq_true, h2]
        rfl

theorem contestantsOf_eraseIdx (models : List ModelConfig) (j : Nat) :
    contestantsOf models j = models.eraseIdx j := by
  have h := filter_enumFrom_ne models 0 j
  simp only [contestantsOf]
  rw [show models.enum = List.enumFrom 0 models from rfl, h]
  simp

theorem roundsOf_length (models : List ModelConfig) (questions : List Question) :
    (roundsOf models questions).length = questions.length * models.length := by
  induction questions with
  | nil => simp [roundsOf]
  | cons q qs ih =>
    simp only [roundsOf, List.flatMap_cons, List.length_append, List.length_map,
      List.enum_length, List.length_cons]
    simp only [roundsOf] at ih
    rw [ih]
    ring

theorem roundsOf_get (models : List ModelConfig) (questions : List Question) :
    ∀ (k : Nat) (hl : k < (roundsOf models questions).length)
      (hq : k / models.length < questions.length)
      (hm : k % models.length < models.length),
      (roundsOf models questions).get ⟨k, hl⟩
        = (questions.get ⟨k / models.length, hq⟩, k % models.length,
            models.get ⟨k % models.length, hm⟩) := by
  induction questions with
  | nil =>
    intro k hl hq hm
    simp at hq
  | cons q qs ih =>
    intro k hl hq hm
    have hN : 0 < models.length := Nat.lt_of_le_of_lt (Nat.zero_le _) hm
    have hblock : roundsOf models (q :: qs)
        = (models.enum).map (fun p => (q, p.1, p.2)) ++ roundsOf models qs := by
      simp [roundsOf, List.flatMap_cons]
    by_cases hk : k < models.length
    · have hdiv : k / models.length = 0 := Nat.div_eq_of_lt hk
      have hmod : k % models.length = k := Nat.mod_eq_of_lt hk
      simp only [List.get_eq_getElem, hblock, hdiv, hmod]
      rw [List.getElem_append_left (by simpa [List.enum_length] using hk),
        List.getElem_map, List.getElem_enum]
      simp
    · have hge : models.length ≤ k := Nat.le_of_not_lt hk
      have hkeq : (k - models.length) + models.length = k := by omega
      have hdiv : k / models.length = (k - models.length) / models.length + 1 := by
        conv_lhs => rw [← hkeq]
        exact Nat.add_div_right _ hN
      have hmod : k % models.length = (k - models.length) % models.length := by
        conv_lhs => rw [← hkeq]
        exact Nat.add_mod_right _ _
      have hq' : (k - models.length) / models.length < qs.length := by
        simp only [List.length_cons] at hq
        omega
      have hm' : (k - models.length) % models.length < models.length :=
        Nat.mod_lt _ hN
      have hl' : k - models.length < (roundsOf models qs).length := by
        rw [roundsOf_length]
        rw [Nat.div_lt_iff_lt_mul hN] at hq'
        omega
      simp only [List.get_eq_getElem, hblock]
      rw [List.getElem_append_right (by simpa [List.enum_length] using hge)]
      have hsub : ((models.enum).map
          (fun p => (q, p.1, p.2) : Nat × ModelConfig → Question × Nat × ModelConfig)).length
          = models.length := by
        simp [List.enum_length]
      simp only [hsub]
      have hrec := ih (k - models.length) hl' hq' hm'
      simp only [List.get_eq_getElem] at hrec
      rw [hrec]
      simp only [hdiv, hmod, List.getElem_cons_succ]

theorem roundsOf_block (models : List ModelConfig) (questions : List Question) :
    ∀ (qi : Nat) (hq : qi < questions.length),
      ((roundsOf models questions).drop (qi * models.length)).take models.length
        = (models.enum).map (fun p => (questions.get ⟨qi, hq⟩, p.1, p.2)) := by
  induction questions with
  | nil =>
    intro qi hq
    simp at hq
  | cons q qs ih =>
    intro qi hq
    have hblock : roundsOf models (q :: qs)
        = (models.enum).map (fun p => (q, p.1, p.2)) ++ roundsOf models qs := by
      simp [roundsOf, List.flatMap_cons]
    have hsub : ((models.enum).map
        (fun p => (q, p.1, p.2) : Nat × ModelConfig → Question × Nat × ModelConfig)).length
        = models.length := by
      simp [List.enum_length]
    cases qi with
    | zero =>
      rw [hblock, Nat.zero_mul, List.drop_zero, ← hsub, List.take_left]
      simp
    | succ qi' =>
      have hstep : (qi' + 1) * models.length = models.length + qi' * models.length := by
        ring
      rw [hblock, hstep, ← hsub, List.drop_append]
      rw [hsub]
      have := ih qi' (by simpa using Nat.lt_of_succ_lt_succ hq)
      rw [this]
      simp

/-- Claim C3: rounds are questions × judge indices `0..N-1` in nested
deterministic order: there are `|questions| * N` rounds; round `k` asks
question `k / N` with judge `participants[k mod N]`; the `qi`-th block
of `N` consecutive rounds runs every judge index exactly once, in index
order, on question `qi`; and a round's contestants are all participants
except the judge, in original list order (`eraseIdx` at the judge
index). -/
theorem c3_round_structure (models : List ModelConfig) (questions : List Question) :
    (roundsOf models questions).length = questions.length * models.length
    ∧ (∀ (k : Nat) (hl : k < (roundsOf models questions).length)
        (hq : k / models.length < questions.length)
        (hm : k % models.length < models.length),
        (roundsOf models questions).get ⟨k, hl⟩
          = (questions.get ⟨k / models.length, hq⟩, k % models.length,
              models.get ⟨k % models.length, hm⟩))
    ∧ (∀ (qi : Nat) (hq : qi < questions.length),
        ((roundsOf models questions).drop (qi * models.length)).take models.length
          = (models.enum).map (fun p => (questions.get ⟨qi, hq⟩, p.1, p.2)))
    ∧ (∀ j : Nat, contestantsOf models j = models.eraseIdx j) :=
  ⟨roundsOf_length models questions, roundsOf_get models questions,
    roundsOf_block models questions, contestantsOf_eraseIdx models⟩

/-- Witness for C3: in a 3-participant, 1-question run, round 1 asks
question `1 / 3 = 0` with judge index `1 mod 3 = 1` (participant B),
and B's contestants are A and C in original order. -/
theorem c3_round_structure_witness :
    (roundsOf [mA, mB, mC] [q0]).get ⟨1, by decide⟩ = (q0, 1, mB)
    ∧ contestantsOf [mA, mB, mC] 1 = [mA, mC] := by
  constructor
  · have h := (c3_round_structure [mA, mB, mC] [q0]).2.1 1 (by decide) (by decide) (by decide)
    rw [h]
    decide
  · have h := (c3_round_structure [mA, mB, mC] [q0]).2.2.2 1
    rw [h]
    decide

theorem judge_answersJ_agree (q : Question) (ans : List Answer) (j : ModelConfig)
    (fb : JudgeFallbackOracle) :
    (∀ jd : JudgmentData,
      (judge_answersJ q ans j (some (embJD jd)) fb).rankings
        = (judge_answers q ans j (some jd) fb).rankings.map embNum)
    ∧ (judge_answersJ q ans j none fb).rankings
        = (judge_answers q ans j none fb).rankings.map embNum := by
  constructor
  · intro jd
    simp only [judge_answersJ, judge_answers, embJD, List.map_map]
    rfl
  · simp only [judge_answersJ, judge_answers, List.map_map]
    rfl

theorem scanLines_rstart (names : List String) (ls : List (List Char)) :
    ∀ (i : Nat) (rks : List (String × Nat)),
      (scanLines names ls i rks).2 = List.findIdx? reasonMarkerLine ls i := by
  induction ls with
  | nil =>
    intro i rks
    rfl
  | cons l rest ih =>
    intro i rks
    by_cases h1 : (hasSub (stripChars l) "排名：" || hasSub (stripChars l) "排名:") = true
    · have hml : reasonMarkerLine l = false := by
        simp only [reasonMarkerLine, h1]
        rfl
      rw [List.findIdx?_cons, hml]
      simp only [scanLines, h1, if_true, Bool.false_eq_true, if_false]
      exact ih (i + 1) rks
    · by_cases h2 : (hasSub (stripChars l) "评价理由：" || hasSub (stripChars l) "评价理由:") = true
      · have hml : reasonMarkerLine l = true := by
          simp only [reasonMarkerLine, h2]
          rw [Bool.not_eq_true] at h1
          simp [h1]
        rw [List.findIdx?_cons, hml]
        simp only [scanLines]
        rw [Bool.not_eq_true] at h1
        simp [h1, h2]
      · have hml : reasonMarkerLine l = false := by
          rw [Bool.not_eq_true] at h2
          simp only [reasonMarkerLine, h2]
          simp
        rw [List.findIdx?_cons, hml]
        rw [Bool.not_eq_true] at h1 h2
        simp only [scanLines, h1, h2, Bool.false_eq_true, if_false]
        by_cases h3 : isRankingLine (stripChars l) = true
        · simp only [h3, if_true]
          cases hf : names.find? (fun n => hasSub (stripChars l) n) with
          | some n => exact ih (i + 1) _
          | none => exact ih (i + 1) rks
        · rw [Bool.not_eq_true] at h3
          simp only [h3, Bool.false_eq_true, if_false]
          exact ih (i + 1) rks

theorem scanLines_names_sub (names : List String) (ls : List (List Char)) :
    ∀ (i : Nat) (rks : List (String × Nat)),
      (∀ x ∈ rks.map Prod.fst, x ∈ names) →
      ∀ x ∈ (scanLines names ls i rks).1.map Prod.fst, x ∈ names := by
  induction ls with
  | nil =>
    intro i rks h
    exact h
  | cons l rest ih =>
    intro i rks h
    simp only [scanLines]
    split
    · exact ih (i + 1) rks h
    · split
      · exact h
      · split
        · cases hf : names.find? (fun n => hasSub (stripChars l) n) with
          | some n =>
            refine ih (i + 1) _ ?_
            intro x hx
            rw [List.map_append, List.mem_append] at hx
            rcases hx with hx | hx
            · exact h x hx
            · simp only [List.map_cons, List.map_nil, List.mem_singleton] at hx
              exact hx ▸ List.mem_of_find?_eq_some hf
          | none => exact ih (i + 1) rks h
        · exact ih (i + 1) rks h

theorem complete_map_fst (ranked : List String) :
    ∀ (ns : List String) (acc : List (String × Nat)),
      ((ns.foldl
          (fun acc n => if ranked.contains n then acc else acc ++ [(n, acc.length + 1)])
          acc).map Prod.fst)
        = acc.map Prod.fst ++ ns.filter (fun n => !(ranked.contains n)) := by
  intro ns
  induction ns with
  | nil =>
    intro acc
    simp
  | cons n ns' ih =>
    intro acc
    simp only [List.foldl_cons, List.filter_cons]
    by_cases hc : ranked.contains n = true
    · simp only [hc, if_true, Bool.not_true, Bool.false_eq_true, if_false]
      exact ih acc
    · rw [Bool.not_eq_true] at hc
      simp only [hc, Bool.false_eq_true, if_false, Bool.not_false, if_true]
      rw [ih (acc ++ [(n, acc.length + 1)])]
      simp

theorem parse_names_mem (response : String) (names : List String) (x : String) :
    x ∈ (parse_judge_response response names).1.map Prod.fst ↔ x ∈ names := by
  have hsub : ∀ y ∈ ((scanLines names (splitOnChar '\n' (stripChars response.data))
      0 []).1.map Prod.fst), y ∈ names :=
    scanLines_names_sub names _ 0 [] (by simp)
  simp only [parse_judge_response]
  rw [complete_map_fst]
  constructor
  · intro hx
    rcases List.mem_append.mp hx with hx | hx
    · exact hsub x hx
    · exact (List.mem_filter.mp hx).1
  · intro hx
    by_cases hc : ((scanLines names (splitOnChar '\n' (stripChars response.data))
        0 []).1.map Prod.fst).contains x = true
    · exact List.mem_append.mpr (Or.inl (List.elem_iff.mp hc))
    · rw [Bool.not_eq_true] at hc
      refine List.mem_append.mpr (Or.inr (List.mem_filter.mpr ⟨hx, ?_⟩))
      rw [hc]
      rfl

theorem enum_map_fst_of (l : List Answer) (g : Nat → Int) :
    ((l.enum.map (fun p => (p.2.model_name, g p.1))).map Prod.fst)
      = l.map (fun a => a.model_name) := by
  rw [List.map_map,
    show (Prod.fst ∘ fun p : Nat × Answer => (p.2.model_name, g p.1))
      = ((fun a => a.model_name) ∘ Prod.snd) from rfl,
    ← List.map_map, List.enum_map_snd]

/-- Claim C1, counterexample: the structured path of `_judge_answers`
copies the declared names unvalidated — with contestants `[B, C]` and
judge A, a structured response naming A and B yields a ranking whose
name-set contains the judge and omits contestant C; and the free-text
parser can rank the same contestant twice, so its name list need not be
duplicate-free. -/
theorem c1_counterexample :
    (judge_answers q0 ansBC mA
        (some ⟨[⟨"A", 9, 1⟩, ⟨"B", 8, 2⟩], "r"⟩) fb0).rankings.map Prod.fst = ["A", "B"]
    ∧ ansBC.map (fun a => a.model_name) = ["B", "C"]
    ∧ mA.name ∈ (judge_answers q0 ansBC mA
        (some ⟨[⟨"A", 9, 1⟩, ⟨"B", 8, 2⟩], "r"⟩) fb0).rankings.map Prod.fst
    ∧ "C" ∉ (judge_answers q0 ansBC mA
        (some ⟨[⟨"A", 9, 1⟩, ⟨"B", 8, 2⟩], "r"⟩) fb0).rankings.map Prod.fst
    ∧ ¬ ((parse_judge_response "1. B 好\n2. B 强" ["B", "C"]).1.map Prod.fst).Nodup := by
  refine ⟨by decide, by decide, by decide, by decide, by decide⟩

/-- Claim C1 (amended): coverage holds per pipeline with caveats. The
free-text parser's ranking names are exactly the contestant name set it
is given (the caller passes the judge-free answer keys), though a
contestant may appear more than once; the random fallback yields exactly
one entry per contestant (its names are a permutation of the answers'
names, given the shuffle permutes); the structured path copies the
declared names verbatim with no validation, so omissions, duplicates and
foreign names — including the judge — are possible there. -/
theorem c1_ranking_coverage :
    (∀ (response : String) (names : List String) (x : String),
      x ∈ (parse_judge_response response names).1.map Prod.fst ↔ x ∈ names)
    ∧ (∀ (q : Question) (answers : List Answer) (judge : ModelConfig)
        (fb : JudgeFallbackOracle),
      List.Perm (fb.shuffle answers) answers →
      List.Perm ((judge_answers q answers judge none fb).rankings.map Prod.fst)
        (answers.map (fun a => a.model_name)))
    ∧ (∀ (q : Question) (answers : List Answer) (judge : ModelConfig)
        (jd : JudgmentData) (fb : JudgeFallbackOracle),
      (judge_answers q answers judge (some jd) fb).rankings.map Prod.fst
        = jd.rankings.map (fun e => e.model_name)) := by
  refine ⟨parse_names_mem, ?_, ?_⟩
  · intro q answers judge fb hperm
    show List.Perm (((fb.shuffle answers).enum.map
      (fun p => (p.2.model_name, fb.score p.1))).map Prod.fst) _
    rw [enum_map_fst_of]
    exact hperm.map _
  · intro q answers judge jd fb
    show (jd.rankings.map (fun e => (e.model_name, e.score))).map Prod.fst = _
    rw [List.map_map]
    rfl

/-- Witness for C1 (amended) at the fallback path with the identity
shuffle: the fallback ranking covers exactly the two contestants. -/
theorem c1_ranking_coverage_witness :
    List.Perm ((judge_answers q0 ansBC mA none fb0).rankings.map Prod.fst)
      (ansBC.map (fun a => a.model_name)) :=
  c1_ranking_coverage.2.1 q0 ansBC mA fb0 (List.Perm.refl _)

/-- Claim C6, counterexample: a structured response declaring a name
outside the contestant set (`X`, contestants are B and C) is accepted by
`_judge_answers` — the declared pair is returned as the ranking and the
declared reasoning is kept, instead of the parse being invalid. -/
theorem c6_counterexample :
    (judge_answers q0 ansBC mA (some ⟨[⟨"X", 5, 1⟩], "r"⟩) fb0).rankings = [("X", 5)]
    ∧ "X" ∉ ansBC.map (fun a => a.model_name)
    ∧ (judge_answers q0 ansBC mA (some ⟨[⟨"X", 5, 1⟩], "r"⟩) fb0).reasoning = "r" := by
  refine ⟨by decide, by decide, by decide⟩

/-- Claim C6 (amended): a structured-dialect response is accepted with
no membership validation — the result is exactly the declared
`(model_name, score)` pairs and reasoning, whatever the names; the
literal `rank` field never influences the result; and aggregation-time
ordering is by the declared score, descending. -/
theorem c6_structured_dialect :
    (∀ (q : Question) (answers : List Answer) (judge : ModelConfig)
        (jd : JudgmentData) (fb : JudgeFallbackOracle),
      judge_answers q answers judge (some jd) fb
        = ⟨q.id, judge.name, jd.rankings.map (fun e => (e.model_name, e.score)),
            jd.reasoning⟩)
    ∧ (∀ (q : Question) (answers : List Answer) (judge : ModelConfig)
        (jd jd' : JudgmentData) (fb : JudgeFallbackOracle),
      jd.rankings.map (fun e => (e.model_name, e.score))
          = jd'.rankings.map (fun e => (e.model_name, e.score)) →
      jd.reasoning = jd'.reasoning →
      judge_answers q answers judge (some jd) fb
        = judge_answers q answers judge (some jd') fb)
    ∧ (∀ rks : List (String × Int),
      (sortDesc rks).Pairwise (fun a b => b.2 ≤ a.2)) := by
  refine ⟨fun q a j jd fb => rfl, ?_, sortDesc_pairwise⟩
  intro q a j jd jd' fb h1 h2
  simp [judge_answers, h1, h2]

/-- Witness for C6 (amended): two structured responses differing only in
the `rank` field produce identical judgments. -/
theorem c6_structured_dialect_witness :
    judge_answers q0 ansBC mA (some ⟨[⟨"B", 9, 1⟩], "r"⟩) fb0
      = judge_answers q0 ansBC mA (some ⟨[⟨"B", 9, 99⟩], "r"⟩) fb0 :=
  c6_structured_dialect.2.1 q0 ansBC mA ⟨[⟨"B", 9, 1⟩], "r"⟩ ⟨[⟨"B", 9, 99⟩], "r"⟩ fb0
    (by decide) rfl

/-- Claim C7: scenario D — on the free-text input with a rankings
marker, two digit-led lines naming B then C, a reasoning marker, and one
reasoning line, the parser returns ranking `[(B,1),(C,2)]` and reasoning
`"内容详实"`. -/
theorem c7_free_text_worked_input :
    parse_judge_response "排名：\n1. B - 清晰\n2. C - 一般\n评价理由：\n内容详实" ["B", "C"]
      = ([("B", 1), ("C", 2)], "内容详实") := by decide

/-- Claim C10: the free-text parser takes the reasoning from the lines
after the reasoning-marker line only when that marker's line index is
strictly positive; when the marker line is the first line (index 0) or
absent, the entire raw response is returned as the reasoning. The marker
index is characterized by `findIdx?` over lines whose stripped text
holds a reasoning marker and no rankings marker. -/
theorem c10_reasoning_extraction (response : String) (names : List String) :
    ((List.findIdx? reasonMarkerLine (splitOnChar '\n' (stripChars response.data)) = none
      ∨ List.findIdx? reasonMarkerLine (splitOnChar '\n' (stripChars response.data))
          = some 0) →
      (parse_judge_response response names).2 = response)
    ∧ (∀ i : Nat,
      List.findIdx? reasonMarkerLine (splitOnChar '\n' (stripChars response.data))
          = some i →
      0 < i →
      (parse_judge_response response names).2
        = ⟨stripChars (joinLines
            ((splitOnChar '\n' (stripChars response.data)).drop (i + 1)))⟩) := by
  have hscan := scanLines_rstart names (splitOnChar '\n' (stripChars response.data)) 0 []
  constructor
  · intro hcase
    rcases hcase with hc | hc
    · simp only [parse_judge_response, hscan, hc]
    · simp only [parse_judge_response, hscan, hc]
      rfl
  · intro i hi hpos
    simp only [parse_judge_response, hscan, hi]
    rw [if_pos hpos]

/-- Witness for C10: with the reasoning marker on the very first line,
the whole raw response is the reasoning. -/
theorem c10_reasoning_extraction_witness :
    (List.findIdx? reasonMarkerLine
        (splitOnChar '\n' (stripChars ("评价理由：\nxyz" : String).data)) = some 0)
    ∧ (parse_judge_response "评价理由：\nxyz" ["B"]).2 = "评价理由：\nxyz" :=
  ⟨by decide, (c10_reasoning_extraction "评价理由：\nxyz" ["B"]).1 (Or.inr (by decide))⟩

end LLMComp
